import Mathlib

/-!
Verification model of the photoTidyGo core pipeline (scanner, SQLite store,
path planner and tidy executor).

The Go sources embedded here are:
  * the tidy executor and path logic (`TidyExecutor.Execute`, `buildTargetPath`,
    `ensureUnique`, `sanitizeRelative`, `sanitizeSegment`, `truncateError`,
    `moveFile`),
  * the storage layer (`ListDuplicateGroups`, `CreateAction`, `MarkAction`,
    `UpdateMediaPath`, `UpsertMediaFile`, `GetMediaByIDs`),
  * the scanner (`Scanner.Scan`).

External effects (filesystem, SQLite, context cancellation, template
rendering) are made explicit: the filesystem and the store are passed as
state, fallible external calls are driven by an environment of fault
functions, and `text/template` rendering is an abstract function from a
media file to the rendered string (rendering is pure in the source; only its
output reaches the path logic).  Path strings are modelled with the Unix
separator, matching `path/filepath` on the platforms the app targets.
String primitives are implemented over `List Char` so that every definition
evaluates inside the kernel.
-/

deriving instance DecidableEq for Except

namespace PhotoTidy

/-! ### Go string and filepath primitives

Each definition mirrors the corresponding function of Go's `strings` or
`path/filepath` package as used by the repository. -/

/-- Split a character list at every `/`, keeping empty fields, as
`strings.Split (s, "/")` does. -/
def splitSlash : List Char → List (List Char)
  | [] => [[]]
  | c :: rest =>
    let r := splitSlash rest
    if c = '/' then [] :: r
    else
      match r with
      | h :: t => (c :: h) :: t
      | [] => [[c]]

/-- Join fields with the `/` separator (`strings.Join (fields, "/")`). -/
def joinSlash : List (List Char) → List Char
  | [] => []
  | [x] => x
  | x :: y :: rest => x ++ '/' :: joinSlash (y :: rest)

/-- `path/filepath.Clean`: one step of the element scan.  `acc` holds the
output elements produced so far; `rooted` says whether the path began with a
separator (a `..` at the root is discarded, as in Go). -/
def cleanStep (rooted : Bool) (acc : List (List Char)) (c : List Char) : List (List Char) :=
  if c = [] ∨ c = ['.'] then acc
  else if c = ['.', '.'] then
    if rooted then acc.dropLast
    else
      match acc.getLast? with
      | some l => if l = ['.', '.'] then acc ++ [['.', '.']] else acc.dropLast
      | none => [['.', '.']]
  else acc ++ [c]

/-- `path/filepath.Clean` (Unix rules): removes empty and `.` elements,
resolves `..` lexically, never escaping the root of a rooted path. -/
def clean (p : String) : String :=
  let cs := p.toList
  if cs = [] then "."
  else
    let rooted : Bool :=
      match cs with
      | '/' :: _ => true
      | _ => false
    let out := (splitSlash cs).foldl (cleanStep rooted) []
    if rooted then ('/' :: joinSlash out).asString
    else if out = [] then "." else (joinSlash out).asString

/-- `path/filepath.Join`: drop leading empty elements, join the rest with the
separator and `Clean` the result; all-empty input yields `""`. -/
def goJoin (elems : List String) : String :=
  let rest := elems.dropWhile (fun e => e = "")
  if rest = [] then "" else clean ((joinSlash (rest.map String.toList)).asString)

/-- Index of the last separator of the character list, if any. -/
def lastSepAux : List Char → Nat → Option Nat → Option Nat
  | [], _, acc => acc
  | c :: rest, i, acc => lastSepAux rest (i + 1) (if c = '/' then some i else acc)

/-- `path/filepath.Dir`: everything up to (and including) the final
separator, cleaned; `.` when the path holds no separator. -/
def dirOf (p : String) : String :=
  match lastSepAux p.toList 0 none with
  | none => "."
  | some i => clean ((p.toList.take (i + 1)).asString)

/-- `path/filepath.Base`: the last element of the path after trailing
separators are removed; `"."` for the empty path, `"/"` for all-separator
paths. -/
def baseOf (p : String) : String :=
  if p = "" then "."
  else
    let cs := (p.toList.reverse.dropWhile (· = '/')).reverse
    if cs = [] then "/"
    else (cs.reverse.takeWhile (· ≠ '/')).reverse.asString

/-- `path/filepath.Ext`: the suffix of the final element starting at its last
dot, or `""` when the final element holds no dot. -/
def extOf (p : String) : String :=
  let seg := p.toList.reverse.takeWhile (· ≠ '/')
  if '.' ∈ seg then ((seg.takeWhile (· ≠ '.')) ++ ['.']).reverse.asString
  else ""

/-- `strings.TrimSuffix`. -/
def trimSuffixStr (s suf : String) : String :=
  let cs := s.toList
  let tl := suf.toList
  if cs.reverse.take tl.length = tl.reverse then (cs.take (cs.length - tl.length)).asString
  else s

/-- `strings.TrimSpace` (the inputs of interest are ASCII, so Go's Unicode
space set and Lean's whitespace predicate agree). -/
def trimSpaceStr (s : String) : String :=
  (((s.toList.dropWhile Char.isWhitespace).reverse.dropWhile Char.isWhitespace).reverse).asString

/-- `strings.Trim (s, string-of-c)` for a one-character cutset. -/
def trimCharEnds (s : String) (c : Char) : String :=
  (((s.toList.dropWhile (· = c)).reverse.dropWhile (· = c)).reverse).asString

/-- The separator predicate of `sanitizeRelative`'s `strings.FieldsFunc`
call: forward or back slash. -/
def isSlashy (c : Char) : Bool := c = '/' ∨ c = '\\'

/-- `strings.FieldsFunc s isSlashy`: maximal runs of non-separator
characters (empty fields never appear). -/
def fieldsSlash (s : String) : List String :=
  ((s.toList.splitOnP isSlashy).map List.asString).filter (· ≠ "")

/-- `strings.ToLower` restricted to ASCII (the only case change Go applies to
the path characters exercised here). -/
def charLower (c : Char) : Char :=
  if 'A' ≤ c ∧ c ≤ 'Z' then Char.ofNat (c.toNat + 32) else c

/-- `strings.ToLower` of a whole string. -/
def lowerStr (s : String) : String := (s.toList.map charLower).asString

/-- `strings.HasPrefix (s, pre)` as a character-list check. -/
def listStarts : List Char → List Char → Bool
  | [], _ => true
  | _ :: _, [] => false
  | a :: as, b :: bs => a = b && listStarts as bs

/-- `strings.HasPrefix (s, pre)`. -/
def hasPre (s pre : String) : Bool := listStarts pre.toList s.toList

/-- The characters removed by the `strings.NewReplacer` of
`sanitizeSegment`. -/
def stripChars : List Char := ['<', '>', ':', '"', '/', '\\', '|', '?', '*']

/-- The replacer of `sanitizeSegment`: every listed character is replaced by
the empty string, i.e. removed. -/
def stripIllegal (s : String) : String :=
  (s.toList.filter (fun c => decide (c ∉ stripChars))).asString

/-- `sanitizeSegment` from the tidy executor: trim whitespace, trim
surrounding dots, strip illegal characters, trim whitespace again. -/
def sanitizeSegment (seg : String) : String :=
  trimSpaceStr (stripIllegal (trimCharEnds (trimSpaceStr seg) '.'))

/-- `sanitizeRelative` from the tidy executor: split the rendered pattern on
both slashes, sanitize every segment, drop the empty ones and rejoin with
`filepath.Join`. -/
def sanitizeRelative (path : String) : String :=
  let sanitized := ((fieldsSlash path).map sanitizeSegment).filter (· ≠ "")
  if sanitized = [] then "" else goJoin sanitized

/-- `truncateError` from the tidy executor: keep at most 240 characters of
the message (the source slices bytes; the messages involved are ASCII). -/
def truncateError (msg : String) : String :=
  if 240 < msg.length then (msg.toList.take 240).asString else msg

/-! ### Storage model (`internal/storage/store.go`)

`MediaFile` and `FileAction` rows keep the fields the core reads or writes.
Wall-clock columns (`created_at`, `executed_at`, timestamps) only feed the
template rendering, which is abstracted, so they are omitted.  Surrogate ids
are modelled by `nextActionId` / `nextMediaId` counters, mirroring SQLite's
`AUTOINCREMENT` (`LastInsertId` of a fresh row is never `0`). -/

/-- One row of `media_files`. -/
structure MediaFile where
  id : Nat
  path : String
  hashMD5 : String
  sizeBytes : Nat
deriving DecidableEq, Repr

/-- `FileActionStatus`. -/
inductive ActionStatus where
  | pending
  | completed
  | failed
deriving DecidableEq, Repr

/-- One row of `file_actions`. -/
structure ActionRow where
  id : Nat
  mediaId : Nat
  sourcePath : String
  targetPath : String
  actionType : String
  status : ActionStatus
  errorMsg : Option String
  hashMD5 : Option String
deriving DecidableEq, Repr

/-- The persisted state owned by `Store`. -/
structure StoreState where
  media : List MediaFile
  actions : List ActionRow
  nextActionId : Nat
  nextMediaId : Nat
deriving DecidableEq, Repr

/-- `DuplicateGroup`. -/
structure DuplicateGroup where
  hash : String
  files : List MediaFile
deriving DecidableEq, Repr

/-! ### Filesystem state, fault environment and event trace

`os.Stat`, `os.MkdirAll`, the SQLite calls and `moveFile` can all fail for
external reasons; an `Env` of fault functions decides those outcomes so that
theorems quantify over every failure pattern.  A `trace` of events records,
in order, each externally visible operation the executor attempts, which is
how the write-ahead ordering of the ledger is stated. -/

/-- The filesystem as the sets of existing file and directory paths. -/
structure FS where
  files : List String
  dirs : List String
deriving DecidableEq, Repr

/-- `os.Stat` succeeds on a path iff it exists as a file or directory. -/
def FS.hasPath (fs : FS) (p : String) : Bool := p ∈ fs.files ∨ p ∈ fs.dirs

/-- Events appended to the trace when the executor touches the world. -/
inductive Event where
  | mkdirAll (dir : String)
  | createPendingOk (id mediaId : Nat) (src tgt : String)
  | createPendingFail (mediaId : Nat) (src tgt : String)
  | moveAttempt (src tgt : String)
  | markAct (id : Nat) (st : ActionStatus)
  | updatePath (mediaId : Nat) (tgt : String)
deriving DecidableEq, Repr

/-- Filesystem, store and trace together. -/
structure World where
  fs : FS
  store : StoreState
  trace : List Event
deriving DecidableEq, Repr

/-- Fault environment for a tidy run.  `statErr p` means `os.Stat p` returns
an error other than `ErrNotExist`; `canceled idx` is the context state
observed at the top of loop iteration `idx`; `parseErr` / `getMediaErr` are
the outcomes of the one-time `template.Parse` and `GetMediaByIDs` calls. -/
structure Env where
  statErr : String → Bool
  mkdirErr : String → Bool
  createActionErr : Nat → Option String
  moveErr : String → String → Option String
  updatePathErr : Nat → Option String
  getMediaErr : Option String
  parseErr : Option String
  canceled : Nat → Bool

/-- Directories created by `os.MkdirAll d`: `d` together with every missing
ancestor. -/
def ancestorDirs (d : String) : List String :=
  let rooted : Bool := d.toList.head? = some '/'
  let comps := (d.toList.splitOnP (· = '/')).filter (· ≠ [])
  (List.range comps.length).map fun i =>
    ((if rooted then ['/'] else []) ++ joinSlash (comps.take (i + 1))).asString

/-- Insert a directory if absent. -/
def addDir (ds : List String) (d : String) : List String :=
  if d ∈ ds then ds else ds ++ [d]

/-- `os.MkdirAll` wrapped as in `buildTargetPath` (failure is surfaced as
`create target dir`). -/
def mkdirAllOp (env : Env) (w : World) (d : String) : Except String World :=
  if env.mkdirErr d then .error ("create target dir: " ++ d)
  else
    .ok { w with
      fs := { w.fs with dirs := (ancestorDirs d).foldl addDir w.fs.dirs },
      trace := w.trace ++ [Event.mkdirAll d] }

/-- `Store.CreateAction`: insert a pending `move` row and return its id.  On
failure nothing is inserted and the executor records `record action: …`. -/
def createActionOp (env : Env) (w : World) (mediaId : Nat) (src tgt hash : String) :
    Except String Nat × World :=
  match env.createActionErr mediaId with
  | some e =>
    (.error ("record action: " ++ e),
      { w with trace := w.trace ++ [Event.createPendingFail mediaId src tgt] })
  | none =>
    let id := w.store.nextActionId
    (.ok id,
      { w with
        store := { w.store with
          actions := w.store.actions ++
            [⟨id, mediaId, src, tgt, "move", ActionStatus.pending, none,
              if hash = "" then none else some hash⟩],
          nextActionId := id + 1 },
        trace := w.trace ++ [Event.createPendingOk id mediaId src tgt] })

/-- `Store.MarkAction`: set the status and error message of the row with the
given id.  The executor discards this call's error, so control flow never
depends on it; the update itself is modelled as applied. -/
def markActionOp (w : World) (id : Nat) (st : ActionStatus) (msg : Option String) : World :=
  { w with
    store := { w.store with
      actions := w.store.actions.map fun a =>
        if a.id = id then { a with status := st, errorMsg := msg } else a },
    trace := w.trace ++ [Event.markAct id st] }

/-- `moveFile src tgt`: the net effect of `os.Rename`, or of the
copy-then-delete fallback on a cross-device error, is that `src` stops and
`tgt` starts existing.  Injected failures leave the modelled filesystem as it
was; the attempt itself is always traced. -/
def moveFileOp (env : Env) (w : World) (src tgt : String) : Except String Unit × World :=
  let w1 := { w with trace := w.trace ++ [Event.moveAttempt src tgt] }
  match env.moveErr src tgt with
  | some e => (.error e, w1)
  | none =>
    let files1 := w1.fs.files.erase src
    let files2 := if tgt ∈ files1 then files1 else files1 ++ [tgt]
    (.ok (), { w1 with fs := { w1.fs with files := files2 } })

/-- `Store.UpdateMediaPath`. -/
def updateMediaPathOp (env : Env) (w : World) (mediaId : Nat) (tgt : String) :
    Except String Unit × World :=
  match env.updatePathErr mediaId with
  | some e => (.error e, w)
  | none =>
    (.ok (),
      { w with
        store := { w.store with
          media := w.store.media.map fun m =>
            if m.id = mediaId then { m with path := tgt } else m },
        trace := w.trace ++ [Event.updatePath mediaId tgt] })

/-- The per-id lookup of the map built by `Store.GetMediaByIDs` (ids are the
primary key, so the first row with the id is the row). -/
def getMedia (store : StoreState) (id : Nat) : Option MediaFile :=
  store.media.find? fun m => m.id == id

/-! ### Path planner (`buildTargetPath`, `ensureUnique`) -/

/-- The `i`-th collision candidate of `ensureUnique`:
`filepath.Join (dir, fmt.Sprintf ("%s-%d%s", base, i, ext))`. -/
def uniqueCandidate (dir base ext : String) (i : Nat) : String :=
  goJoin [dir, base ++ "-" ++ toString i ++ ext]

/-- The suffix loop of `ensureUnique` (`for i := 1; i < 1000; i++`), with the
remaining iteration count made structural: the call sites use `fuel = 999`,
`i = 1`, so `i` ranges over `1..999` exactly as in the source.  A candidate
counts as free only when `os.Stat` reports `ErrNotExist`. -/
def ensureUniqueLoop (env : Env) (fs : FS) (path dir base ext : String) :
    Nat → Nat → Except String String
  | 0, _ => .error ("unable to find unique name for " ++ path)
  | fuel + 1, i =>
    let candidate := uniqueCandidate dir base ext i
    if env.statErr candidate = false && fs.hasPath candidate = false then .ok candidate
    else ensureUniqueLoop env fs path dir base ext fuel (i + 1)

/-- `ensureUnique`: return the path when `os.Stat` says it does not exist,
propagate any other stat error, and otherwise search `-1 … -999` suffixes
placed before the extension. -/
def ensureUnique (env : Env) (fs : FS) (path : String) : Except String String :=
  if env.statErr path then .error ("stat " ++ path)
  else if fs.hasPath path then
    let dir := dirOf path
    let name := baseOf path
    let ext := extOf name
    let base := trimSuffixStr name ext
    ensureUniqueLoop env fs path dir base ext 999 1
  else .ok path

/-- `buildTargetPath`.  `render file` is the output of
`tmpl.Execute` on the file's template data (`Date`/`Year`/…/`OriginalName`/
`Ext` all feed only the rendering, which is pure in the source, so the
rendered string is the interface).  The world is threaded because the
function touches the filesystem: `os.MkdirAll` on the target's directory and
the stat probes of `ensureUnique`. -/
def relativeFor (rendered : String) (file : MediaFile) : String :=
  let r := sanitizeRelative rendered
  if r = "" then sanitizeSegment (baseOf file.path) else r

/-- The cleaned absolute target computed by `buildTargetPath` before the
escape check. -/
def targetFor (base rendered : String) (file : MediaFile) : String :=
  clean (goJoin [base, relativeFor rendered file])

def buildTargetPath (env : Env) (base : String) (render : MediaFile → Except String String)
    (file : MediaFile) (w : World) : Except String String × World :=
  match render file with
  | .error e => (.error ("execute pattern: " ++ e), w)
  | .ok rendered =>
    let target := targetFor base rendered file
    if hasPre (lowerStr target) (lowerStr (clean base)) = false then
      (.error ("target path escapes base: " ++ target), w)
    else
      match mkdirAllOp env w (dirOf target) with
      | .error e => (.error e, w)
      | .ok w1 =>
        match ensureUnique env w1.fs target with
        | .error e => (.error e, w1)
        | .ok unique => (.ok unique, w1)

/-! ### Tidy executor (`TidyExecutor.Execute`) -/

/-- `TidyOptions` (the pattern string itself lives behind `render` /
`Env.parseErr`). -/
structure TidyOptions where
  targetBase : String
  dryRun : Bool
deriving DecidableEq, Repr

/-- `TidySummary` (`durationMs` is wall clock and is not modelled). -/
structure TidySummary where
  total : Nat
  moved : Nat
  skipped : Nat
  failed : Nat
  dryRun : Bool
  targetBase : String
deriving DecidableEq, Repr

/-- The body of `Execute`'s loop for a resolved file: plan the target path,
skip when it equals the current path, otherwise (live mode) write the
pending ledger row, move, update the media path and mark the row — counting
exactly one of moved/skipped/failed and always continuing.  `actionID` is
`0` in dry-run, as in the source. -/
def processItem (env : Env) (render : MediaFile → Except String String) (opts : TidyOptions)
    (file : MediaFile) (s : TidySummary) (w : World) : TidySummary × World :=
  match buildTargetPath env opts.targetBase render file w with
  | (.error _, w1) => ({ s with failed := s.failed + 1 }, w1)
  | (.ok targetPath, w1) =>
    if file.path = targetPath then ({ s with skipped := s.skipped + 1 }, w1)
    else
      match (if opts.dryRun then (.ok 0, w1)
             else createActionOp env w1 file.id file.path targetPath file.hashMD5 :
             Except String Nat × World) with
      | (.error _, w2) => ({ s with failed := s.failed + 1 }, w2)
      | (.ok actionID, w2) =>
        match (if opts.dryRun then (.ok (), w2)
               else moveFileOp env w2 file.path targetPath :
               Except String Unit × World) with
        | (.error e, w3) =>
          let errMsg := truncateError e
          let w4 := if actionID ≠ 0 then markActionOp w3 actionID ActionStatus.failed (some errMsg)
                    else w3
          ({ s with failed := s.failed + 1 }, w4)
        | (.ok _, w3) =>
          if opts.dryRun then ({ s with moved := s.moved + 1 }, w3)
          else
            match updateMediaPathOp env w3 file.id targetPath with
            | (.error e, w4) =>
              let errMsg := "update media path: " ++ e
              let w5 := if actionID ≠ 0 then
                          markActionOp w4 actionID ActionStatus.failed (some errMsg)
                        else w4
              ({ s with failed := s.failed + 1 }, w5)
            | (.ok _, w4) =>
              let w5 := markActionOp w4 actionID ActionStatus.completed none
              ({ s with moved := s.moved + 1 }, w5)

/-- The request loop of `Execute`: a cancellation check at the top of each
iteration, a `missing` failure for requests without a media row, and
`processItem` for the rest. -/
def execLoop (env : Env) (render : MediaFile → Except String String) (opts : TidyOptions) :
    List Nat → Nat → TidySummary → World → TidySummary × Option String × World
  | [], _, s, w => (s, none, w)
  | req :: rest, idx, s, w =>
    if env.canceled idx then (s, some "context canceled", w)
    else
      match getMedia w.store req with
      | none => execLoop env render opts rest (idx + 1) { s with failed := s.failed + 1 } w
      | some file =>
        execLoop env render opts rest (idx + 1)
          (processItem env render opts file s w).1 (processItem env render opts file s w).2

/-- `TidyExecutor.Execute`: summary initialisation, the empty-batch and
missing-target-base early returns, pattern parsing, the batched media
lookup, then the loop.  The result mirrors Go's `(TidySummary, error)`
pair. -/
def ExecuteTidy (env : Env) (render : MediaFile → Except String String) (opts : TidyOptions)
    (requests : List Nat) (w : World) : TidySummary × Option String × World :=
  let summary : TidySummary :=
    ⟨requests.length, 0, 0, 0, opts.dryRun, opts.targetBase⟩
  if requests = [] then (summary, none, w)
  else if opts.targetBase = "" then
    (summary, some "target base folder is not configured", w)
  else
    match env.parseErr with
    | some e => (summary, some ("parse pattern: " ++ e), w)
    | none =>
      match env.getMediaErr with
      | some e => (summary, some e, w)
      | none => execLoop env render opts requests 0 summary w

/-! ### Write-ahead ordering over traces -/

/-- Does the already-seen part of a trace hold a successful pending-row
insert for this source and target? -/
def hasCreateOk (seen : List Event) (src tgt : String) : Bool :=
  seen.any fun e =>
    match e with
    | Event.createPendingOk _ _ s t => s == src && t == tgt
    | _ => false

/-- Scan a trace left to right, carrying the seen prefix: every attempted
move must find a successful pending-row insert for its own source and target
among the events strictly before it. -/
def coveredFrom (seen : List Event) : List Event → Bool
  | [] => true
  | Event.moveAttempt src tgt :: rest =>
    hasCreateOk seen src tgt && coveredFrom (seen ++ [Event.moveAttempt src tgt]) rest
  | e :: rest => coveredFrom (seen ++ [e]) rest

/-- Write-ahead ordering of a whole trace. -/
def WriteAheadTrace (tr : List Event) : Prop := coveredFrom [] tr = true

/-- Formalisation of "the path lies under the configured target base": after
cleaning, the path is the base itself or extends it at a separator. -/
def liesUnder (base p : String) : Bool :=
  clean p = clean base || listStarts (clean base ++ "/").toList (clean p).toList

/-! ### Duplicate grouping (`Store.ListDuplicateGroups`)

The SQL query selects every row whose `hash_md5` occurs in at least two
rows, ordered by `hash_md5, id`; the Go loop then cuts the ordered rows into
groups at each hash change.  The `WHERE … IN (… HAVING COUNT(*) > 1)`
subquery is the `dupRows` filter; `ORDER BY hash_md5, id` is modelled as a
sorted permutation under `rowLE` (ids are the primary key, so the sorted
permutation is unique); the loop with its `current` accumulator is
`groupRunsAux`.  The query is a pure read: the function consumes the rows
and touches no state. -/

/-- Number of rows sharing a hash (`COUNT(*)` per `hash_md5`). -/
def countHash (media : List MediaFile) (h : String) : Nat :=
  (media.filter fun x => x.hashMD5 == h).length

/-- The rows selected by the duplicate query's `WHERE` clause. -/
def dupRows (media : List MediaFile) : List MediaFile :=
  media.filter fun r => decide (2 ≤ countHash media r.hashMD5)

/-- Lexicographic (byte-order) comparison of character lists: SQLite's
BINARY collation on the stored hex hashes. -/
def charsLt : List Char → List Char → Bool
  | [], [] => false
  | [], _ :: _ => true
  | _ :: _, [] => false
  | a :: as, b :: bs =>
    decide (a.toNat < b.toNat) || (a == b && charsLt as bs)

/-- BINARY string comparison. -/
def strLtB (a b : String) : Bool := charsLt a.toList b.toList

/-- `ORDER BY hash_md5, id` as a relation. -/
def rowLE (a b : MediaFile) : Prop :=
  strLtB a.hashMD5 b.hashMD5 = true ∨ (a.hashMD5 = b.hashMD5 ∧ a.id ≤ b.id)

instance : DecidableRel rowLE := fun a b => by
  unfold rowLE; infer_instance

/-- The rows returned by the SQL query, in result order. -/
def sortedDupRows (media : List MediaFile) : List MediaFile :=
  List.insertionSort rowLE (dupRows media)

/-- The grouping loop of `ListDuplicateGroups`: `h`/`cur` are the hash and
members of the `current` group, rows are consumed in result order, and a
group is emitted whenever the hash changes (and once at the end). -/
def groupRunsAux (h : String) (cur : List MediaFile) :
    List MediaFile → List DuplicateGroup
  | [] => [⟨h, cur⟩]
  | f :: rest =>
    if f.hashMD5 = h then groupRunsAux h (cur ++ [f]) rest
    else ⟨h, cur⟩ :: groupRunsAux f.hashMD5 [f] rest

/-- The grouping loop started with `current == nil`. -/
def groupRuns : List MediaFile → List DuplicateGroup
  | [] => []
  | f :: rest => groupRunsAux f.hashMD5 [f] rest

/-- `Store.ListDuplicateGroups` as a function of the `media_files` rows. -/
def listDuplicateGroups (media : List MediaFile) : List DuplicateGroup :=
  groupRuns (sortedDupRows media)

/-! ### Scanner (`internal/media/scanner.go`)

The walked tree is given to the model explicitly: an `Entry` is what
`filepath.WalkDir` presents to the callback (path, symlink bit, enumeration
error, and for directories the children in walk order).  `buildMediaFile`
(stat + hash + EXIF) and `UpsertMediaFile` are driven by the scan fault
environment; `mediaOf` is the row `buildMediaFile` produces when it
succeeds. -/

mutual
/-- One entry the walk visits. -/
inductive Entry where
  | fileE : String → Bool → Option String → Entry
  | dirE : String → Bool → Option String → Forest → Entry
/-- A list of entries in walk order. -/
inductive Forest where
  | nilF : Forest
  | consF : Entry → Forest → Forest
end

/-- Fault environment of a scan run. -/
structure ScanEnv where
  mediaOf : String → MediaFile
  buildErr : String → Option String
  upsertErr : String → Option String
  dupQueryErr : Option String
  canceled : Bool

/-- `Scanner.Options` (sources are passed separately, with their root
checks). -/
structure ScanOptions where
  extensions : List String
  followSymlinks : Bool

/-- One configured source root: the result of `filepath.Abs` and `os.Stat`
on it, and its children in walk order. -/
structure Source where
  path : String
  absErr : Option String
  statErr : Option String
  isDir : Bool
  entries : Forest

/-- The mutable state of a scan run. -/
structure ScanState where
  errors : List String
  filesSkipped : Nat
  fileCounter : Nat
  persistCounter : Nat
  store : StoreState
deriving DecidableEq, Repr

/-- `Scan`'s summary (duration omitted: wall clock). -/
structure ScanSummary where
  filesDiscovered : Nat
  filesPersisted : Nat
  filesSkipped : Nat
  errors : List String
  duplicateGroups : Nat
deriving DecidableEq, Repr

/-- `Store.UpsertMediaFile`: insert-or-replace keyed on `path`; a conflict
keeps the existing surrogate id, an insert draws a fresh one. -/
def upsertMediaFile (store : StoreState) (f : MediaFile) : StoreState :=
  if store.media.any (fun m => m.path == f.path) then
    { store with
      media := store.media.map fun m =>
        if m.path == f.path then { f with id := m.id } else m }
  else
    { store with
      media := store.media ++ [{ f with id := store.nextMediaId }],
      nextMediaId := store.nextMediaId + 1 }

/-- The extension-set normalisation at the top of `Scan`: lower-case, trim,
drop empties, dot-prefix. -/
def normalizeExts (exts : List String) : List String :=
  exts.foldl
    (fun acc e =>
      let e1 := trimSpaceStr (lowerStr e)
      if e1 = "" then acc
      else
        let e2 := if hasPre e1 "." then e1 else "." ++ e1
        if e2 ∈ acc then acc else acc ++ [e2])
    []

mutual
/-- The walk callback applied to one entry, plus `WalkDir`'s own behaviour
around it: an enumeration error is logged and the walk continues; a symlink
is skipped (a symlinked directory subtree entirely); directories descend;
files pass the extension filter, the cancellation check, then
`buildMediaFile` and the upsert, every per-file error being appended to the
error list.  The boolean is the cancellation flag. -/
def walkEntry (senv : ScanEnv) (exts : List String) (follow : Bool) (st : ScanState) :
    Entry → ScanState × Bool
  | .fileE path sym werr =>
    match werr with
    | some e => ({ st with errors := st.errors ++ ["walk " ++ path ++ ": " ++ e] }, false)
    | none =>
      if follow = false ∧ sym = true then
        ({ st with filesSkipped := st.filesSkipped + 1 }, false)
      else
        let ext := lowerStr (extOf (baseOf path))
        if exts ≠ [] ∧ ext ∉ exts then
          ({ st with filesSkipped := st.filesSkipped + 1 }, false)
        else if senv.canceled then (st, true)
        else
          let st1 := { st with fileCounter := st.fileCounter + 1 }
          match senv.buildErr path with
          | some e =>
            ({ st1 with errors := st1.errors ++ ["metadata " ++ path ++ ": " ++ e] }, false)
          | none =>
            match senv.upsertErr path with
            | some e =>
              ({ st1 with errors := st1.errors ++ ["persist " ++ path ++ ": " ++ e] }, false)
            | none =>
              ({ st1 with
                  store := upsertMediaFile st1.store (senv.mediaOf path),
                  persistCounter := st1.persistCounter + 1 }, false)
  | .dirE path sym werr children =>
    if follow = false ∧ sym = true then (st, false)
    else
      match werr with
      | some e => ({ st with errors := st.errors ++ ["walk " ++ path ++ ": " ++ e] }, false)
      | none => walkForest senv exts follow st children

/-- Walk a list of sibling entries, stopping on cancellation. -/
def walkForest (senv : ScanEnv) (exts : List String) (follow : Bool) (st : ScanState) :
    Forest → ScanState × Bool
  | .nilF => (st, false)
  | .consF e f =>
    match walkEntry senv exts follow st e with
    | (st1, true) => (st1, true)
    | (st1, false) => walkForest senv exts follow st1 f
end

/-- The source loop of `Scan`: a context check per root, then the root's
`Abs`/`Stat`/directory checks (each failure logged, root skipped), then the
walk of its tree. -/
def scanSourcesLoop (senv : ScanEnv) (exts : List String) (follow : Bool) :
    ScanState → List Source → ScanState × Bool
  | st, [] => (st, false)
  | st, src :: rest =>
    if senv.canceled then (st, true)
    else
      match src.absErr with
      | some e =>
        scanSourcesLoop senv exts follow
          { st with errors := st.errors ++ ["resolve path " ++ src.path ++ ": " ++ e] } rest
      | none =>
        match src.statErr with
        | some e =>
          scanSourcesLoop senv exts follow
            { st with errors := st.errors ++ ["stat " ++ src.path ++ ": " ++ e] } rest
        | none =>
          if src.isDir = false then
            scanSourcesLoop senv exts follow
              { st with errors := st.errors ++ [src.path ++ " is not a directory"] } rest
          else
            match walkForest senv exts follow st src.entries with
            | (st1, true) => (st1, true)
            | (st1, false) => scanSourcesLoop senv exts follow st1 rest

/-- `Scanner.Scan`: normalise the extension set, loop over the sources, and
on normal completion fill the counters and run the duplicate query (whose
failure is logged, not returned).  On cancellation the summary is returned
as it stood — counters unset, as in the source — together with the error. -/
def ScanRun (senv : ScanEnv) (opts : ScanOptions) (sources : List Source)
    (store0 : StoreState) : ScanSummary × Option String × StoreState :=
  let exts := normalizeExts opts.extensions
  let st0 : ScanState := ⟨[], 0, 0, 0, store0⟩
  match scanSourcesLoop senv exts opts.followSymlinks st0 sources with
  | (st, true) =>
    (⟨0, 0, st.filesSkipped, st.errors, 0⟩, some "context canceled", st.store)
  | (st, false) =>
    match senv.dupQueryErr with
    | some e =>
      (⟨st.fileCounter, st.persistCounter, st.filesSkipped,
        st.errors ++ ["duplicate query: " ++ e], 0⟩, none, st.store)
    | none =>
      (⟨st.fileCounter, st.persistCounter, st.filesSkipped, st.errors,
        (listDuplicateGroups st.store.media).length⟩, none, st.store)

/-! ### Concrete fixtures used by the claim theorems -/

/-- Fault-free environment: every external call succeeds, nothing is
cancelled. -/
def env0 : Env :=
  ⟨fun _ => false, fun _ => false, fun _ => none, fun _ _ => none, fun _ => none,
    none, none, fun _ => false⟩

/-- A media row whose file sits outside the target base. -/
def mediaA : MediaFile := ⟨1, "/src/a.jpg", "h1", 10⟩

/-- A media row already located at its rendered target. -/
def mediaB : MediaFile := ⟨2, "/base/d/a.jpg", "h2", 5⟩

/-- Store holding `mediaA`. -/
def store1 : StoreState := ⟨[mediaA], [], 1, 2⟩

/-- World for `mediaA`: the source file exists, the target directory
`/base/2021` does not. -/
def world1 : World := ⟨⟨["/src/a.jpg"], ["/src", "/base"]⟩, store1, []⟩

/-- World for `mediaB`: the database row is present but neither the file nor
the directory `/base/d` exist on disk. -/
def world2 : World := ⟨⟨[], ["/base"]⟩, ⟨[mediaB], [], 1, 3⟩, []⟩

/-- Rendering of the default pattern for `mediaA` (date directory plus
original name). -/
def renderDate : MediaFile → Except String String := fun _ => .ok "2021/a.jpg"

/-- Rendering of a pattern whose literal text wraps a dot-dot segment in
stripped characters. -/
def renderEscape : MediaFile → Except String String := fun _ => .ok "<..>/based/x"

/-- Rendering for `mediaB`: resolves to its current location. -/
def renderSame : MediaFile → Except String String := fun _ => .ok "d/a.jpg"

/-- Environment whose pending-row insert always fails. -/
def envCreateFail : Env :=
  ⟨fun _ => false, fun _ => false, fun _ => some "database is locked", fun _ _ => none,
    fun _ => none, none, none, fun _ => false⟩

/-- A 300-character error message. -/
def longMsg : String := String.mk (List.replicate 300 'x')

/-- Environment whose media-path update always fails with a long message. -/
def envUpdateFail : Env :=
  ⟨fun _ => false, fun _ => false, fun _ => none, fun _ _ => none,
    fun _ => some longMsg, none, none, fun _ => false⟩

/-- Environment whose file move always fails. -/
def envMoveFail : Env :=
  ⟨fun _ => false, fun _ => false, fun _ => none, fun _ _ => some "device busy",
    fun _ => none, none, none, fun _ => false⟩

/-- Scan environment for the witness run: hashing fails on one path,
everything else succeeds. -/
def senv1 : ScanEnv :=
  ⟨fun p => ⟨0, p, "h", 1⟩, fun p => if p = "/s/bad.jpg" then some "boom" else none,
    fun _ => none, none, false⟩

/-- Source tree for the witness scan. -/
def sources1 : List Source :=
  [⟨"/s", none, none, true,
    .consF (.fileE "/s/bad.jpg" false none)
      (.consF (.fileE "/s/good.jpg" false none)
        (.consF (.fileE "/s/skip.txt" false none)
          (.consF (.dirE "/s/sub" true none (.consF (.fileE "/s/sub/x.jpg" false none) .nilF))
            .nilF)))⟩]

/-! ### Order theory of the BINARY collation -/

theorem charsLt_irrefl : ∀ l, charsLt l l = false
  | [] => rfl
  | a :: as => by simp [charsLt, charsLt_irrefl as]

theorem charsLt_trans :
    ∀ {a b c : List Char}, charsLt a b = true → charsLt b c = true → charsLt a c = true
  | [], _ :: _, _ :: _, _, _ => rfl
  | [], [], _, h1, _ => absurd h1 (by simp [charsLt])
  | a :: as, b :: bs, c :: cs, h1, h2 => by
    simp only [charsLt, Bool.or_eq_true, Bool.and_eq_true, decide_eq_true_eq,
      beq_iff_eq] at h1 h2 ⊢
    rcases h1 with h1 | ⟨rfl, h1⟩ <;> rcases h2 with h2 | ⟨rfl, h2⟩
    · exact Or.inl (Nat.lt_trans h1 h2)
    · exact Or.inl h1
    · exact Or.inl h2
    · exact Or.inr ⟨rfl, charsLt_trans h1 h2⟩

/-- Characters with the same code point are equal. -/
theorem char_toNat_inj {a b : Char} (h : a.toNat = b.toNat) : a = b := by
  have := congrArg Char.ofNat h
  rwa [Char.ofNat_toNat, Char.ofNat_toNat] at this

theorem charsLt_conn :
    ∀ a b : List Char, charsLt a b = false → charsLt b a = false → a = b
  | [], [], _, _ => rfl
  | [], _ :: _, h1, _ => absurd h1 (by simp [charsLt])
  | _ :: _, [], _, h2 => absurd h2 (by simp [charsLt])
  | a :: as, b :: bs, h1, h2 => by
    simp only [charsLt, Bool.or_eq_false_iff, Bool.and_eq_false_iff,
      decide_eq_false_iff_not, Nat.not_lt, beq_eq_false_iff_ne, ne_eq] at h1 h2
    obtain ⟨hab, h1'⟩ := h1
    obtain ⟨hba, h2'⟩ := h2
    have hc : a = b := char_toNat_inj (Nat.le_antisymm hba hab)
    subst hc
    rcases h1' with h1' | h1'
    · exact absurd rfl h1'
    · rcases h2' with h2' | h2'
      · exact absurd rfl h2'
      · rw [charsLt_conn as bs h1' h2']

theorem strLtB_irrefl (s : String) : strLtB s s = false := charsLt_irrefl _

theorem strLtB_trans {a b c : String} (h1 : strLtB a b = true) (h2 : strLtB b c = true) :
    strLtB a c = true := charsLt_trans h1 h2

theorem strLtB_conn {a b : String} (h1 : strLtB a b = false) (h2 : strLtB b a = false) :
    a = b := by
  have h := charsLt_conn _ _ h1 h2
  cases a; cases b
  simp only [String.toList] at h
  exact congrArg String.mk h

instance : IsTotal MediaFile rowLE :=
  ⟨fun a b => by
    cases h1 : strLtB a.hashMD5 b.hashMD5
    · cases h2 : strLtB b.hashMD5 a.hashMD5
      · have he := strLtB_conn h1 h2
        rcases Nat.le_total a.id b.id with h' | h'
        · exact Or.inl (Or.inr ⟨he, h'⟩)
        · exact Or.inr (Or.inr ⟨he.symm, h'⟩)
      · exact Or.inr (Or.inl h2)
    · exact Or.inl (Or.inl h1)⟩

instance : IsTrans MediaFile rowLE :=
  ⟨fun a b c hab hbc => by
    rcases hab with h1 | ⟨h1, h1'⟩ <;> rcases hbc with h2 | ⟨h2, h2'⟩
    · exact Or.inl (strLtB_trans h1 h2)
    · exact Or.inl (h2 ▸ h1)
    · exact Or.inl (h1 ▸ h2)
    · exact Or.inr ⟨h1.trans h2, Nat.le_trans h1' h2'⟩⟩

/-! ### Frame and bookkeeping lemmas for the executor -/

theorem mkdirAllOp_ok {env : Env} {w : World} {d : String} {w1 : World}
    (h : mkdirAllOp env w d = .ok w1) :
    w1.store = w.store ∧ w1.fs.files = w.fs.files ∧
      w1.trace = w.trace ++ [Event.mkdirAll d] := by
  unfold mkdirAllOp at h
  split at h
  · exact absurd h (by simp)
  · rw [Except.ok.injEq] at h
    subst h
    exact ⟨rfl, rfl, rfl⟩

/-- `buildTargetPath` never moves files, never touches the store, and its
only trace contribution is the (possible) `MkdirAll` of the target's
directory. -/
theorem buildTargetPath_frame (env : Env) (base : String)
    (render : MediaFile → Except String String) (file : MediaFile) (w : World) :
    ((buildTargetPath env base render file w).2).store = w.store ∧
    ((buildTargetPath env base render file w).2).fs.files = w.fs.files ∧
    (((buildTargetPath env base render file w).2).trace = w.trace ∨
      ∃ d, ((buildTargetPath env base render file w).2).trace =
        w.trace ++ [Event.mkdirAll d]) := by
  simp only [buildTargetPath]
  split
  · exact ⟨rfl, rfl, Or.inl rfl⟩
  · split
    · exact ⟨rfl, rfl, Or.inl rfl⟩
    · split
      · exact ⟨rfl, rfl, Or.inl rfl⟩
      · rename_i w1 hmk
        obtain ⟨h1, h2, h3⟩ := mkdirAllOp_ok hmk
        split
        · exact ⟨h1, h2, Or.inr ⟨_, h3⟩⟩
        · exact ⟨h1, h2, Or.inr ⟨_, h3⟩⟩

/-- Every branch of the loop body counts exactly one of moved, skipped,
failed, and leaves the fixed summary fields alone. -/
theorem processItem_counts (env : Env) (render : MediaFile → Except String String)
    (opts : TidyOptions) (file : MediaFile) (s : TidySummary) (w : World) :
    ((processItem env render opts file s w).1).moved +
        ((processItem env render opts file s w).1).skipped +
        ((processItem env render opts file s w).1).failed =
      s.moved + s.skipped + s.failed + 1 ∧
    ((processItem env render opts file s w).1).total = s.total ∧
    ((processItem env render opts file s w).1).dryRun = s.dryRun := by
  unfold processItem
  repeat' split
  all_goals simp
  all_goals omega

/-- The request loop: a run that ends without an error processed every
request, each contributing one count. -/
theorem execLoop_counts {env : Env} {render : MediaFile → Except String String}
    {opts : TidyOptions} :
    ∀ (reqs : List Nat) (idx : Nat) (s : TidySummary) (w : World) (s' : TidySummary)
      (w' : World),
      execLoop env render opts reqs idx s w = (s', none, w') →
      s'.moved + s'.skipped + s'.failed = s.moved + s.skipped + s.failed + reqs.length ∧
        s'.total = s.total
  | [], idx, s, w, s', w', h => by
    simp only [execLoop, Prod.mk.injEq] at h
    obtain ⟨rfl, -, -⟩ := h
    simp
  | req :: rest, idx, s, w, s', w', h => by
    simp only [execLoop] at h
    split at h
    · simp at h
    · split at h
      · have h4 := execLoop_counts rest (idx + 1) _ _ _ _ h
        simp only [List.length_cons] at h4 ⊢
        omega
      · rename_i file heq
        have h2 := execLoop_counts rest (idx + 1) _ _ _ _ h
        have h3 := processItem_counts env render opts file s w
        simp only [List.length_cons]
        omega

/-- The request loop never produces an error unless the context is
cancelled. -/
theorem execLoop_ok {env : Env} {render : MediaFile → Except String String}
    {opts : TidyOptions} (hc : ∀ i, env.canceled i = false) :
    ∀ (reqs : List Nat) (idx : Nat) (s : TidySummary) (w : World),
      (execLoop env render opts reqs idx s w).2.1 = none
  | [], _, _, _ => rfl
  | req :: rest, idx, s, w => by
    rw [execLoop]
    rw [if_neg (by simp [hc idx])]
    split
    · exact execLoop_ok hc rest (idx + 1) _ _
    · exact execLoop_ok hc rest (idx + 1) _ _

/-! ### The scanner never fails without cancellation -/

mutual
theorem walkEntry_nc (senv : ScanEnv) (exts : List String) (follow : Bool)
    (h : senv.canceled = false) :
    ∀ (st : ScanState) (e : Entry), (walkEntry senv exts follow st e).2 = false
  | st, .fileE p sym werr => by
    unfold walkEntry
    cases werr
    · simp only [h]
      repeat' split
      all_goals simp_all
    · rfl
  | st, .dirE p sym werr ch => by
    unfold walkEntry
    split
    · rfl
    · cases werr
      · exact walkForest_nc senv exts follow h st ch
      · rfl

theorem walkForest_nc (senv : ScanEnv) (exts : List String) (follow : Bool)
    (h : senv.canceled = false) :
    ∀ (st : ScanState) (f : Forest), (walkForest senv exts follow st f).2 = false
  | _, .nilF => rfl
  | st, .consF e f => by
    have he := walkEntry_nc senv exts follow h st e
    unfold walkForest
    split
    · rename_i st1 heq
      rw [heq] at he
      exact absurd he (by simp)
    · rename_i st1 heq
      exact walkForest_nc senv exts follow h st1 f
end

/-- The source loop only stops early on cancellation. -/
theorem scanSourcesLoop_nc {senv : ScanEnv} {exts : List String} {follow : Bool}
    (h : senv.canceled = false) :
    ∀ (st : ScanState) (sources : List Source),
      (scanSourcesLoop senv exts follow st sources).2 = false
  | _, [] => rfl
  | st, src :: rest => by
    rw [scanSourcesLoop]
    rw [if_neg (by simp [h])]
    split
    · exact scanSourcesLoop_nc h _ rest
    · split
      · exact scanSourcesLoop_nc h _ rest
      · split
        · exact scanSourcesLoop_nc h _ rest
        · split
          · rename_i st1 heq
            have := walkForest_nc senv exts follow h st src.entries
            rw [heq] at this
            exact absurd this (by simp)
          · exact scanSourcesLoop_nc h _ rest

/-! ### Trace coverage lemmas -/

theorem coveredFrom_append (t1 : List Event) :
    ∀ (s t2 : List Event),
      coveredFrom s (t1 ++ t2) = (coveredFrom s t1 && coveredFrom (s ++ t1) t2) := by
  induction t1 with
  | nil => intro s t2; simp [coveredFrom]
  | cons e t1 ih =>
    intro s t2
    cases e <;> simp [coveredFrom, ih, Bool.and_assoc, List.append_assoc]

/-! ### Outcome characterisations of the executor's primitive operations -/

theorem createActionOp_error {env : Env} {w : World} {mid : Nat} {src tgt hash e : String}
    {w2 : World} (h : createActionOp env w mid src tgt hash = (.error e, w2)) :
    w2 = { w with trace := w.trace ++ [Event.createPendingFail mid src tgt] } := by
  unfold createActionOp at h
  split at h
  · rw [Prod.mk.injEq] at h
    exact h.2.symm
  · rw [Prod.mk.injEq] at h
    exact absurd h.1 (by simp)

theorem createActionOp_ok {env : Env} {w : World} {mid : Nat} {src tgt hash : String}
    {id : Nat} {w2 : World} (h : createActionOp env w mid src tgt hash = (.ok id, w2)) :
    id = w.store.nextActionId ∧
    w2 = { w with
      store := { w.store with
        actions := w.store.actions ++
          [⟨id, mid, src, tgt, "move", ActionStatus.pending, none,
            if hash = "" then none else some hash⟩],
        nextActionId := id + 1 },
      trace := w.trace ++ [Event.createPendingOk id mid src tgt] } := by
  unfold createActionOp at h
  split at h
  · rw [Prod.mk.injEq] at h
    exact absurd h.1 (by simp)
  · rw [Prod.mk.injEq] at h
    obtain ⟨h1, h2⟩ := h
    rw [Except.ok.injEq] at h1
    subst h1
    exact ⟨rfl, h2.symm⟩

theorem moveFileOp_error {env : Env} {w : World} {src tgt e : String} {w2 : World}
    (h : moveFileOp env w src tgt = (.error e, w2)) :
    w2 = { w with trace := w.trace ++ [Event.moveAttempt src tgt] } ∧
      env.moveErr src tgt = some e := by
  unfold moveFileOp at h
  split at h
  · rename_i e' heq
    rw [Prod.mk.injEq] at h
    rw [Except.error.injEq] at *
    exact ⟨h.2.symm, by rw [heq, h.1]⟩
  · rw [Prod.mk.injEq] at h
    exact absurd h.1 (by simp)

theorem moveFileOp_ok {env : Env} {w : World} {src tgt : String} {u : Unit} {w2 : World}
    (h : moveFileOp env w src tgt = (.ok u, w2)) :
    w2.trace = w.trace ++ [Event.moveAttempt src tgt] ∧ w2.store = w.store ∧
      w2.fs.dirs = w.fs.dirs := by
  unfold moveFileOp at h
  split at h
  · rw [Prod.mk.injEq] at h
    exact absurd h.1 (by simp)
  · rw [Prod.mk.injEq] at h
    obtain ⟨-, h2⟩ := h
    subst h2
    exact ⟨rfl, rfl, rfl⟩

theorem updateMediaPathOp_error {env : Env} {w : World} {mid : Nat} {tgt e : String}
    {w2 : World} (h : updateMediaPathOp env w mid tgt = (.error e, w2)) :
    w2 = w ∧ env.updatePathErr mid = some e := by
  unfold updateMediaPathOp at h
  split at h
  · rename_i e' heq
    rw [Prod.mk.injEq] at h
    rw [Except.error.injEq] at *
    exact ⟨h.2.symm, by rw [heq, h.1]⟩
  · rw [Prod.mk.injEq] at h
    exact absurd h.1 (by simp)

theorem updateMediaPathOp_ok {env : Env} {w : World} {mid : Nat} {tgt : String} {u : Unit}
    {w2 : World} (h : updateMediaPathOp env w mid tgt = (.ok u, w2)) :
    w2.trace = w.trace ++ [Event.updatePath mid tgt] ∧ w2.fs = w.fs ∧
      w2.store.actions = w.store.actions := by
  unfold updateMediaPathOp at h
  split at h
  · rw [Prod.mk.injEq] at h
    exact absurd h.1 (by simp)
  · rw [Prod.mk.injEq] at h
    obtain ⟨-, h2⟩ := h
    subst h2
    exact ⟨rfl, rfl, rfl⟩

/-- `buildTargetPath`'s trace contribution is empty or one `MkdirAll`, and
either is covered relative to any seen prefix. -/
theorem buildTargetPath_trace (env : Env) (base : String)
    (render : MediaFile → Except String String) (file : MediaFile) (w : World) :
    ∃ bd, ((buildTargetPath env base render file w).2).trace = w.trace ++ bd ∧
      ∀ seen, coveredFrom seen bd = true := by
  obtain ⟨-, -, h3⟩ := buildTargetPath_frame env base render file w
  rcases h3 with h3 | ⟨d, h3⟩
  · exact ⟨[], by simpa using h3, fun seen => rfl⟩
  · exact ⟨[Event.mkdirAll d], h3, fun seen => by simp [coveredFrom]⟩

/-- Live mode: the loop body appends a trace segment in which every
attempted move is preceded by its own successful pending-row insert. -/
theorem processItem_trace (env : Env) (render : MediaFile → Except String String)
    (opts : TidyOptions) (file : MediaFile) (s : TidySummary) (w : World)
    (hdry : opts.dryRun = false) :
    ∃ delta, ((processItem env render opts file s w).2).trace = w.trace ++ delta ∧
      ∀ seen, coveredFrom seen delta = true := by
  obtain ⟨bd, hbd, hbdcov⟩ := buildTargetPath_trace env opts.targetBase render file w
  simp only [processItem, hdry, Bool.false_eq_true, if_false]
  split
  · rename_i e w1 heq
    rw [heq] at hbd
    exact ⟨bd, hbd, hbdcov⟩
  · rename_i tgt w1 heq
    rw [heq] at hbd
    replace hbd : w1.trace = w.trace ++ bd := hbd
    split
    · exact ⟨bd, hbd, hbdcov⟩
    · split
      · rename_i hne e w2 heq2
        have h2 := createActionOp_error heq2
        subst h2
        refine ⟨bd ++ [Event.createPendingFail file.id file.path tgt], ?_, ?_⟩
        · simp [hbd]
        · intro seen
          rw [coveredFrom_append]
          simp [hbdcov seen, coveredFrom]
      · rename_i hne actionID w2 heq2
        obtain ⟨hid, h2⟩ := createActionOp_ok heq2
        split
        · rename_i e w3 heq3
          obtain ⟨h3, -⟩ := moveFileOp_error heq3
          subst h2
          subst h3
          split
          · refine ⟨bd ++ [Event.createPendingOk actionID file.id file.path tgt,
              Event.moveAttempt file.path tgt, Event.markAct actionID ActionStatus.failed],
              ?_, ?_⟩
            · simp [markActionOp, hbd]
            · intro seen
              rw [coveredFrom_append]
              simp [hbdcov seen, coveredFrom, hasCreateOk, List.any_append]
          · refine ⟨bd ++ [Event.createPendingOk actionID file.id file.path tgt,
              Event.moveAttempt file.path tgt], ?_, ?_⟩
            · simp [hbd]
            · intro seen
              rw [coveredFrom_append]
              simp [hbdcov seen, coveredFrom, hasCreateOk, List.any_append]
        · rename_i u w3 heq3
          obtain ⟨h3, h3s, -⟩ := moveFileOp_ok heq3
          split
          · rename_i e w4 heq4
            obtain ⟨h4, -⟩ := updateMediaPathOp_error heq4
            subst h4
            split
            · refine ⟨bd ++ [Event.createPendingOk actionID file.id file.path tgt,
                Event.moveAttempt file.path tgt, Event.markAct actionID ActionStatus.failed],
                ?_, ?_⟩
              · subst h2
                simp [markActionOp, h3, hbd]
              · intro seen
                rw [coveredFrom_append]
                simp [hbdcov seen, coveredFrom, hasCreateOk, List.any_append]
            · refine ⟨bd ++ [Event.createPendingOk actionID file.id file.path tgt,
                Event.moveAttempt file.path tgt], ?_, ?_⟩
              · subst h2
                simp [h3, hbd]
              · intro seen
                rw [coveredFrom_append]
                simp [hbdcov seen, coveredFrom, hasCreateOk, List.any_append]
          · rename_i u2 w4 heq4
            obtain ⟨h4, -, -⟩ := updateMediaPathOp_ok heq4
            refine ⟨bd ++ [Event.createPendingOk actionID file.id file.path tgt,
              Event.moveAttempt file.path tgt, Event.updatePath file.id tgt,
              Event.markAct actionID ActionStatus.completed], ?_, ?_⟩
            · subst h2
              simp [markActionOp, h4, h3, hbd]
            · intro seen
              rw [coveredFrom_append]
              simp [hbdcov seen, coveredFrom, hasCreateOk, List.any_append]

/-- Live mode: the request loop preserves write-ahead ordering of the
trace. -/
theorem execLoop_trace {env : Env} {render : MediaFile → Except String String}
    {opts : TidyOptions} (hdry : opts.dryRun = false) :
    ∀ (reqs : List Nat) (idx : Nat) (s : TidySummary) (w : World),
      WriteAheadTrace w.trace →
      WriteAheadTrace ((execLoop env render opts reqs idx s w).2.2).trace
  | [], _, _, _, hw => hw
  | req :: rest, idx, s, w, hw => by
    rw [execLoop]
    split
    · exact hw
    · split
      · exact execLoop_trace hdry rest (idx + 1) _ w hw
      · rename_i file heq
        apply execLoop_trace hdry rest (idx + 1)
        obtain ⟨delta, hd, hcov⟩ := processItem_trace env render opts file s w hdry
        unfold WriteAheadTrace at hw ⊢
        rw [hd, coveredFrom_append]
        simp [hw, hcov]

/-- Loop-body branch: the computed target equals the current path.  The item
is counted skipped and the world is exactly the planner's output — no ledger
row, no file change. -/
theorem processItem_skip {env : Env} {render : MediaFile → Except String String}
    {opts : TidyOptions} {file : MediaFile} {s : TidySummary} {w : World} {tgt : String}
    {w1 : World}
    (h1 : buildTargetPath env opts.targetBase render file w = (.ok tgt, w1))
    (h2 : file.path = tgt) :
    processItem env render opts file s w = ({ s with skipped := s.skipped + 1 }, w1) := by
  simp [processItem, h1, h2]

/-- Loop-body branch: the pending-row insert fails in live mode.  The item
is counted failed, and the world is the planner's output plus only the
failure event — in particular no move is attempted and the ledger still
holds no row for the item. -/
theorem processItem_createFail {env : Env} {render : MediaFile → Except String String}
    {opts : TidyOptions} {file : MediaFile} {s : TidySummary} {w : World} {tgt e : String}
    {w1 : World}
    (hdry : opts.dryRun = false)
    (h1 : buildTargetPath env opts.targetBase render file w = (.ok tgt, w1))
    (h2 : file.path ≠ tgt)
    (h3 : env.createActionErr file.id = some e) :
    processItem env render opts file s w =
      ({ s with failed := s.failed + 1 },
        { w1 with trace := w1.trace ++ [Event.createPendingFail file.id file.path tgt] }) := by
  simp [processItem, h1, h2, hdry, createActionOp, h3]

/-- `truncateError` never exceeds 240 characters. -/
theorem truncateError_length (m : String) : (truncateError m).length ≤ 240 := by
  unfold truncateError
  split
  · rename_i h
    have he : ((m.toList.take 240).asString).length = (m.toList.take 240).length := rfl
    rw [he, List.length_take]
    omega
  · rename_i h
    omega

/-- Loop-body branch: the live move fails.  The item is counted failed and
the ledger row written for it is marked failed with the truncated
message. -/
theorem processItem_moveFail {env : Env} {render : MediaFile → Except String String}
    {opts : TidyOptions} {file : MediaFile} {s : TidySummary} {w : World} {tgt m : String}
    {w1 : World}
    (hdry : opts.dryRun = false)
    (h1 : buildTargetPath env opts.targetBase render file w = (.ok tgt, w1))
    (h2 : file.path ≠ tgt)
    (h3 : env.createActionErr file.id = none)
    (h4 : env.moveErr file.path tgt = some m)
    (h5 : w1.store.nextActionId ≠ 0) :
    (processItem env render opts file s w).1 = { s with failed := s.failed + 1 } ∧
    ∃ a, a ∈ ((processItem env render opts file s w).2).store.actions ∧
      a.id = w1.store.nextActionId ∧ a.targetPath = tgt ∧
      a.status = ActionStatus.failed ∧ a.errorMsg = some (truncateError m) := by
  constructor
  · simp only [processItem, h1, h2, hdry, Bool.false_eq_true, if_false, createActionOp, h3,
      moveFileOp, h4, markActionOp]
  · simp only [processItem, h1, h2, hdry, Bool.false_eq_true, if_false, createActionOp, h3,
      moveFileOp, h4, markActionOp]
    rw [if_pos h5]
    refine ⟨⟨w1.store.nextActionId, file.id, file.path, tgt, "move", ActionStatus.failed,
      some (truncateError m), if file.hashMD5 = "" then none else some file.hashMD5⟩,
      ?_, rfl, rfl, rfl, rfl⟩
    apply List.mem_map.mpr
    refine ⟨⟨w1.store.nextActionId, file.id, file.path, tgt, "move", ActionStatus.pending,
      none, if file.hashMD5 = "" then none else some file.hashMD5⟩, ?_, ?_⟩
    · exact List.mem_append_right _ (List.mem_singleton.mpr rfl)
    · simp

/-! ### The suffix search of `ensureUnique` -/

theorem ensureUniqueLoop_finds {env : Env} {fs : FS} {path dir base ext : String}
    (hstat : ∀ p, env.statErr p = false) :
    ∀ (fuel i i0 : Nat), i ≤ i0 → i0 < i + fuel →
      fs.hasPath (uniqueCandidate dir base ext i0) = false →
      (∀ j, i ≤ j → j < i0 → fs.hasPath (uniqueCandidate dir base ext j) = true) →
      ensureUniqueLoop env fs path dir base ext fuel i =
        .ok (uniqueCandidate dir base ext i0)
  | 0, i, i0, hle, hlt, _, _ => absurd hlt (by omega)
  | fuel + 1, i, i0, hle, hlt, hfree, htaken => by
    rw [ensureUniqueLoop]
    by_cases hi : i = i0
    · subst hi
      simp [hstat, hfree]
    · have h1 : fs.hasPath (uniqueCandidate dir base ext i) = true :=
        htaken i le_rfl (by omega)
      simp only [hstat, h1, decide_eq_true_eq, Bool.and_eq_true, decide_eq_false_iff_not]
      rw [if_neg (by simp [h1])]
      exact ensureUniqueLoop_finds hstat fuel (i + 1) i0 (by omega) (by omega) hfree
        (fun j hj1 hj2 => htaken j (by omega) hj2)

theorem ensureUniqueLoop_exhausted {env : Env} {fs : FS} {path dir base ext : String}
    (hstat : ∀ p, env.statErr p = false) :
    ∀ (fuel i : Nat),
      (∀ j, i ≤ j → j < i + fuel → fs.hasPath (uniqueCandidate dir base ext j) = true) →
      ensureUniqueLoop env fs path dir base ext fuel i =
        .error ("unable to find unique name for " ++ path)
  | 0, i, _ => rfl
  | fuel + 1, i, htaken => by
    rw [ensureUniqueLoop]
    have h1 : fs.hasPath (uniqueCandidate dir base ext i) = true :=
      htaken i le_rfl (by omega)
    simp only [hstat, h1, decide_eq_true_eq, Bool.and_eq_true, decide_eq_false_iff_not]
    rw [if_neg (by simp [h1])]
    exact ensureUniqueLoop_exhausted hstat fuel (i + 1)
      (fun j hj1 hj2 => htaken j (by omega) (by omega))

/-! ### Properties of the duplicate-grouping loop -/

theorem groupRunsAux_flat :
    ∀ (l : List MediaFile) (h : String) (cur : List MediaFile),
      ((groupRunsAux h cur l).map DuplicateGroup.files).join = cur ++ l
  | [], h, cur => by simp [groupRunsAux]
  | f :: rest, h, cur => by
    rw [groupRunsAux]
    split
    · rw [groupRunsAux_flat rest h (cur ++ [f])]
      simp
    · simp only [List.map_cons, List.join_cons, groupRunsAux_flat rest f.hashMD5 [f]]
      simp

theorem groupRunsAux_hash :
    ∀ (l : List MediaFile) (h : String) (cur : List MediaFile),
      (∀ c ∈ cur, c.hashMD5 = h) →
      ∀ g ∈ groupRunsAux h cur l, ∀ f ∈ g.files, f.hashMD5 = g.hash
  | [], h, cur, hcur => by
    intro g hg f hf
    simp only [groupRunsAux, List.mem_singleton] at hg
    subst hg
    exact hcur f hf
  | f :: rest, h, cur, hcur => by
    rw [groupRunsAux]
    split
    · rename_i hfh
      exact groupRunsAux_hash rest h (cur ++ [f])
        (by intro c hc; rcases List.mem_append.mp hc with hc | hc
            · exact hcur c hc
            · rw [List.mem_singleton.mp hc]; exact hfh)
    · rename_i hfh
      intro g hg
      rcases List.mem_cons.mp hg with hg | hg
      · subst hg
        exact hcur
      · exact groupRunsAux_hash rest f.hashMD5 [f]
          (by intro c hc; rw [List.mem_singleton.mp hc]) g hg

theorem groupRunsAux_lb :
    ∀ (l : List MediaFile) (h : String) (cur : List MediaFile),
      l.Pairwise rowLE →
      (∀ x ∈ l, strLtB h x.hashMD5 = true ∨ h = x.hashMD5) →
      ∀ g ∈ groupRunsAux h cur l, strLtB h g.hash = true ∨ h = g.hash
  | [], h, cur, _, _ => by
    intro g hg
    simp only [groupRunsAux, List.mem_singleton] at hg
    subst hg
    exact Or.inr rfl
  | f :: rest, h, cur, hs, hlb => by
    rw [groupRunsAux]
    have hsrest := List.Pairwise.of_cons hs
    have hrel : ∀ x ∈ rest, rowLE f x := fun x hx => List.rel_of_pairwise_cons hs hx
    split
    · rename_i hfh
      refine groupRunsAux_lb rest h (cur ++ [f]) hsrest ?_
      intro x hx
      rcases hrel x hx with hx1 | ⟨hx1, -⟩
      · exact Or.inl (hfh ▸ hx1)
      · exact Or.inr (hfh ▸ hx1)
    · rename_i hfh
      intro g hg
      rcases List.mem_cons.mp hg with hg | hg
      · subst hg
        exact Or.inr rfl
      · have hlbf : strLtB h f.hashMD5 = true := by
          rcases hlb f (List.mem_cons_self _ _) with h1 | h1
          · exact h1
          · exact absurd h1.symm hfh
        have hrec := groupRunsAux_lb rest f.hashMD5 [f] hsrest
          (by intro x hx
              rcases hrel x hx with hx1 | ⟨hx1, -⟩
              · exact Or.inl hx1
              · exact Or.inr hx1) g hg
        rcases hrec with h1 | h1
        · exact Or.inl (strLtB_trans hlbf h1)
        · exact Or.inl (h1 ▸ hlbf)

theorem groupRunsAux_mono :
    ∀ (l : List MediaFile) (h : String) (cur : List MediaFile),
      l.Pairwise rowLE →
      (∀ x ∈ l, strLtB h x.hashMD5 = true ∨ h = x.hashMD5) →
      ((groupRunsAux h cur l).map DuplicateGroup.hash).Pairwise
        (fun a b => strLtB a b = true)
  | [], h, cur, _, _ => by simp [groupRunsAux]
  | f :: rest, h, cur, hs, hlb => by
    rw [groupRunsAux]
    have hsrest := List.Pairwise.of_cons hs
    have hrel : ∀ x ∈ rest, rowLE f x := fun x hx => List.rel_of_pairwise_cons hs hx
    split
    · rename_i hfh
      refine groupRunsAux_mono rest h (cur ++ [f]) hsrest ?_
      intro x hx
      rcases hrel x hx with hx1 | ⟨hx1, -⟩
      · exact Or.inl (hfh ▸ hx1)
      · exact Or.inr (hfh ▸ hx1)
    · rename_i hfh
      have hlbf : strLtB h f.hashMD5 = true := by
        rcases hlb f (List.mem_cons_self _ _) with h1 | h1
        · exact h1
        · exact absurd h1.symm hfh
      have hlbrest : ∀ x ∈ rest, strLtB f.hashMD5 x.hashMD5 = true ∨ f.hashMD5 = x.hashMD5 := by
        intro x hx
        rcases hrel x hx with hx1 | ⟨hx1, -⟩
        · exact Or.inl hx1
        · exact Or.inr hx1
      simp only [List.map_cons]
      refine List.Pairwise.cons ?_ (groupRunsAux_mono rest f.hashMD5 [f] hsrest hlbrest)
      intro b hb
      obtain ⟨g, hg, rfl⟩ := List.mem_map.mp hb
      rcases groupRunsAux_lb rest f.hashMD5 [f] hsrest hlbrest g hg with h1 | h1
      · exact strLtB_trans hlbf h1
      · exact h1 ▸ hlbf

theorem groupRunsAux_files_le :
    ∀ (l : List MediaFile) (h : String) (cur : List MediaFile),
      l.Pairwise rowLE → cur.Pairwise rowLE →
      (∀ c ∈ cur, ∀ x ∈ l, rowLE c x) →
      ∀ g ∈ groupRunsAux h cur l, g.files.Pairwise rowLE
  | [], h, cur, _, hcur, _ => by
    intro g hg
    simp only [groupRunsAux, List.mem_singleton] at hg
    subst hg
    exact hcur
  | f :: rest, h, cur, hs, hcur, hcross => by
    rw [groupRunsAux]
    have hsrest := List.Pairwise.of_cons hs
    have hrel : ∀ x ∈ rest, rowLE f x := fun x hx => List.rel_of_pairwise_cons hs hx
    split
    · refine groupRunsAux_files_le rest h (cur ++ [f]) hsrest ?_ ?_
      · refine (List.pairwise_append).mpr ⟨hcur, List.pairwise_singleton _ _, ?_⟩
        intro c hc x hx
        rw [List.mem_singleton.mp hx]
        exact hcross c hc f (List.mem_cons_self _ _)
      · intro c hc x hx
        rcases List.mem_append.mp hc with hc | hc
        · exact hcross c hc x (List.mem_cons_of_mem _ hx)
        · rw [List.mem_singleton.mp hc]
          exact hrel x hx
    · intro g hg
      rcases List.mem_cons.mp hg with hg | hg
      · subst hg
        exact hcur
      · refine groupRunsAux_files_le rest f.hashMD5 [f] hsrest
          (List.pairwise_singleton _ _) ?_ g hg
        intro c hc x hx
        rw [List.mem_singleton.mp hc]
        exact hrel x hx

theorem groupRunsAux_nodup :
    ∀ (l : List MediaFile) (h : String) (cur : List MediaFile),
      ((cur ++ l).map (fun m => m.id)).Nodup →
      ∀ g ∈ groupRunsAux h cur l, (g.files.map (fun m => m.id)).Nodup
  | [], h, cur, hnd => by
    intro g hg
    simp only [groupRunsAux, List.mem_singleton] at hg
    subst hg
    simpa using hnd
  | f :: rest, h, cur, hnd => by
    rw [groupRunsAux]
    split
    · refine groupRunsAux_nodup rest h (cur ++ [f]) ?_
      simpa using hnd
    · intro g hg
      rcases List.mem_cons.mp hg with hg | hg
      · subst hg
        exact List.Nodup.sublist
          ((List.sublist_append_left cur (f :: rest)).map (fun m => m.id)) hnd
      · refine groupRunsAux_nodup rest f.hashMD5 [f] ?_ g hg
        exact List.Nodup.sublist
          ((List.sublist_append_right cur (f :: rest)).map (fun m => m.id)) hnd

theorem groupRunsAux_ne :
    ∀ (l : List MediaFile) (h : String) (cur : List MediaFile), cur ≠ [] →
      ∀ g ∈ groupRunsAux h cur l, g.files ≠ []
  | [], h, cur, hne => by
    intro g hg
    simp only [groupRunsAux, List.mem_singleton] at hg
    subst hg
    exact hne
  | f :: rest, h, cur, hne => by
    rw [groupRunsAux]
    split
    · exact groupRunsAux_ne rest h (cur ++ [f]) (by simp)
    · intro g hg
      rcases List.mem_cons.mp hg with hg | hg
      · subst hg
        exact hne
      · exact groupRunsAux_ne rest f.hashMD5 [f] (by simp) g hg

/-- Strictly increasing group hashes make the hash a key. -/
theorem groups_hash_inj :
    ∀ (G : List DuplicateGroup),
      ((G.map DuplicateGroup.hash).Pairwise (fun a b => strLtB a b = true)) →
      ∀ g ∈ G, ∀ g' ∈ G, g.hash = g'.hash → g = g'
  | [], _, g, hg, _, _, _ => absurd hg (List.not_mem_nil g)
  | g0 :: G, hp, g, hg, g', hg', he => by
    simp only [List.map_cons] at hp
    have hlt : ∀ b ∈ List.map DuplicateGroup.hash G, strLtB g0.hash b = true :=
      fun b hb => List.rel_of_pairwise_cons hp hb
    rcases List.mem_cons.mp hg with hg1 | hg1
    · rcases List.mem_cons.mp hg' with hg2 | hg2
      · rw [hg1, hg2]
      · exfalso
        have h1 := hlt _ (List.mem_map_of_mem DuplicateGroup.hash hg2)
        rw [← hg1, he] at h1
        rw [strLtB_irrefl] at h1
        exact Bool.false_ne_true h1
    · rcases List.mem_cons.mp hg' with hg2 | hg2
      · exfalso
        have h1 := hlt _ (List.mem_map_of_mem DuplicateGroup.hash hg1)
        rw [← hg2, ← he] at h1
        rw [strLtB_irrefl] at h1
        exact Bool.false_ne_true h1
      · exact groups_hash_inj G (List.Pairwise.of_cons hp) g hg1 g' hg2 he

theorem groupRuns_flat :
    ∀ l : List MediaFile, ((groupRuns l).map DuplicateGroup.files).join = l
  | [] => rfl
  | f :: rest => by
    rw [groupRuns, groupRunsAux_flat]
    rfl

theorem groupRuns_hash (l : List MediaFile) :
    ∀ g ∈ groupRuns l, ∀ f ∈ g.files, f.hashMD5 = g.hash := by
  cases l with
  | nil => intro g hg; exact absurd hg (List.not_mem_nil g)
  | cons f rest =>
    rw [groupRuns]
    exact groupRunsAux_hash rest f.hashMD5 [f]
      (by intro c hc; rw [List.mem_singleton.mp hc])

theorem groupRuns_mono (l : List MediaFile) (hs : l.Pairwise rowLE) :
    ((groupRuns l).map DuplicateGroup.hash).Pairwise (fun a b => strLtB a b = true) := by
  cases l with
  | nil => simp [groupRuns]
  | cons f rest =>
    rw [groupRuns]
    refine groupRunsAux_mono rest f.hashMD5 [f] (List.Pairwise.of_cons hs) ?_
    intro x hx
    rcases List.rel_of_pairwise_cons hs hx with h1 | ⟨h1, -⟩
    · exact Or.inl h1
    · exact Or.inr h1

theorem groupRuns_files_le (l : List MediaFile) (hs : l.Pairwise rowLE) :
    ∀ g ∈ groupRuns l, g.files.Pairwise rowLE := by
  cases l with
  | nil => intro g hg; exact absurd hg (List.not_mem_nil g)
  | cons f rest =>
    rw [groupRuns]
    refine groupRunsAux_files_le rest f.hashMD5 [f] (List.Pairwise.of_cons hs)
      (List.pairwise_singleton _ _) ?_
    intro c hc x hx
    rw [List.mem_singleton.mp hc]
    exact List.rel_of_pairwise_cons hs hx

theorem groupRuns_nodup (l : List MediaFile) (hnd : (l.map (fun m => m.id)).Nodup) :
    ∀ g ∈ groupRuns l, (g.files.map (fun m => m.id)).Nodup := by
  cases l with
  | nil => intro g hg; exact absurd hg (List.not_mem_nil g)
  | cons f rest =>
    rw [groupRuns]
    exact groupRunsAux_nodup rest f.hashMD5 [f] (by simpa using hnd)

theorem groupRuns_ne (l : List MediaFile) : ∀ g ∈ groupRuns l, g.files ≠ [] := by
  cases l with
  | nil => intro g hg; exact absurd hg (List.not_mem_nil g)
  | cons f rest =>
    rw [groupRuns]
    exact groupRunsAux_ne rest f.hashMD5 [f] (by simp)

/-- C7: `ListDuplicateGroups` returns exactly the hashes with two or more
rows; each group holds precisely the rows with its hash, in ascending id
order; groups are ordered by hash; hashes with a single row never appear
(immediate from the first conjunct).  The embedded query is a pure function
of the rows — it performs no writes by construction.  The `Nodup` hypothesis
models `id` being the primary key of `media_files`. -/
theorem store_listDuplicateGroups_spec (media : List MediaFile)
    (hids : (media.map (fun m => m.id)).Nodup) :
    (∀ h, (∃ g ∈ listDuplicateGroups media, g.hash = h) ↔ 2 ≤ countHash media h) ∧
    (∀ g ∈ listDuplicateGroups media, ∀ f,
        f ∈ g.files ↔ f ∈ media ∧ f.hashMD5 = g.hash) ∧
    (∀ g ∈ listDuplicateGroups media, g.files.Pairwise (fun a b => a.id < b.id)) ∧
    ((listDuplicateGroups media).map DuplicateGroup.hash).Pairwise
      (fun a b => strLtB a b = true) := by
  have hperm : List.Perm (sortedDupRows media) (dupRows media) :=
    List.perm_insertionSort rowLE _
  have hsorted : (sortedDupRows media).Pairwise rowLE :=
    List.sorted_insertionSort rowLE (dupRows media)
  have hmemdup : ∀ x : MediaFile,
      x ∈ dupRows media ↔ x ∈ media ∧ 2 ≤ countHash media x.hashMD5 := by
    intro x
    simp [dupRows, List.mem_filter]
  have hmemsorted : ∀ x : MediaFile,
      x ∈ sortedDupRows media ↔ x ∈ media ∧ 2 ≤ countHash media x.hashMD5 :=
    fun x => (hperm.mem_iff).trans (hmemdup x)
  have hflat := groupRuns_flat (sortedDupRows media)
  have hhash := groupRuns_hash (sortedDupRows media)
  have hmono := groupRuns_mono (sortedDupRows media) hsorted
  have hfilesle := groupRuns_files_le (sortedDupRows media) hsorted
  have hndsorted : ((sortedDupRows media).map (fun m => m.id)).Nodup := by
    refine ((hperm.map (fun m => m.id)).nodup_iff).mpr ?_
    refine List.Nodup.sublist ?_ hids
    exact (List.filter_sublist media).map (fun m => m.id)
  have hgnodup := groupRuns_nodup (sortedDupRows media) hndsorted
  have hne := groupRuns_ne (sortedDupRows media)
  have hmemflat : ∀ (f : MediaFile) (g : DuplicateGroup),
      g ∈ listDuplicateGroups media → f ∈ g.files → f ∈ sortedDupRows media := by
    intro f g hg hf
    rw [← hflat]
    exact List.mem_join.mpr ⟨g.files, List.mem_map_of_mem _ hg, hf⟩
  have hA : ∀ h, (∃ g ∈ listDuplicateGroups media, g.hash = h) ↔ 2 ≤ countHash media h := by
    intro h
    constructor
    · rintro ⟨g, hg, rfl⟩
      obtain ⟨f, hf⟩ := List.exists_mem_of_ne_nil _ (hne g hg)
      have hfs := (hmemsorted f).mp (hmemflat f g hg hf)
      rw [← hhash g hg f hf]
      exact hfs.2
    · intro hcount
      have hpos : 0 < (media.filter (fun x => x.hashMD5 == h)).length := by
        unfold countHash at hcount
        omega
      obtain ⟨f, hf⟩ := List.exists_mem_of_length_pos hpos
      obtain ⟨hfmedia, hfh'⟩ := List.mem_filter.mp hf
      have hfh : f.hashMD5 = h := by simpa using hfh'
      have hfin : f ∈ sortedDupRows media :=
        (hmemsorted f).mpr ⟨hfmedia, by rw [hfh]; exact hcount⟩
      rw [← hflat] at hfin
      obtain ⟨lf, hlf, hfl⟩ := List.mem_join.mp hfin
      obtain ⟨g, hg, rfl⟩ := List.mem_map.mp hlf
      exact ⟨g, hg, (hhash g hg f hfl).symm.trans hfh⟩
  refine ⟨hA, ?_, ?_, hmono⟩
  · intro g hg f
    constructor
    · intro hf
      exact ⟨((hmemsorted f).mp (hmemflat f g hg hf)).1, hhash g hg f hf⟩
    · rintro ⟨hfm, hfh⟩
      have hcount : 2 ≤ countHash media g.hash := (hA g.hash).mp ⟨g, hg, rfl⟩
      have hfin : f ∈ sortedDupRows media :=
        (hmemsorted f).mpr ⟨hfm, by rw [hfh]; exact hcount⟩
      rw [← hflat] at hfin
      obtain ⟨lf, hlf, hfl⟩ := List.mem_join.mp hfin
      obtain ⟨g', hg', rfl⟩ := List.mem_map.mp hlf
      have hgg : g' = g :=
        groups_hash_inj _ hmono g' hg' g hg ((hhash g' hg' f hfl).symm.trans hfh)
      rw [← hgg]
      exact hfl
  · intro g hg
    have h1 := hfilesle g hg
    have h2 : g.files.Pairwise (fun a b => a.id ≠ b.id) :=
      List.pairwise_map.mp (hgnodup g hg)
    refine (h1.and h2).imp_of_mem ?_
    intro a b ha hb hab
    obtain ⟨hab, hne'⟩ := hab
    rcases hab with hlt | ⟨-, hle⟩
    · exfalso
      rw [hhash g hg a ha, hhash g hg b hb, strLtB_irrefl] at hlt
      exact Bool.false_ne_true hlt
    · exact Nat.lt_of_le_of_ne hle hne'

/-! ### Claim theorems -/

/-- C1 (code bug): in a dry run the executor writes no `FileAction` row,
moves no file, and counts the processable item as planned (in `moved`) — but
it does mutate the filesystem: `buildTargetPath` runs `os.MkdirAll`
regardless of the dry-run flag, so the target directory `/base/2021` is
created.  This contradicts the specified dry-run purity ("no file moved, no
directory created"). -/
theorem tidy_dryRun_purity_bug :
    (ExecuteTidy env0 renderDate ⟨"/base", true⟩ [1] world1).2.1 = none ∧
    (ExecuteTidy env0 renderDate ⟨"/base", true⟩ [1] world1).1.moved = 1 ∧
    (ExecuteTidy env0 renderDate ⟨"/base", true⟩ [1] world1).2.2.store.actions = [] ∧
    (ExecuteTidy env0 renderDate ⟨"/base", true⟩ [1] world1).2.2.fs.files = world1.fs.files ∧
    (ExecuteTidy env0 renderDate ⟨"/base", true⟩ [1] world1).2.2.fs.dirs ≠ world1.fs.dirs := by
  decide

/-- C3 (counterexample): an empty batch does **not** surface an error — the
executor returns immediately with a `nil` error, contradicting the claim
that both configuration conditions are rejected with an error. -/
theorem tidy_emptyBatch_cex :
    (ExecuteTidy env0 renderDate ⟨"/base", false⟩ [] world1).2.1 = none := by
  decide

/-- C3 (amended): an empty batch returns at once with an empty summary and
no error; an unset target base (with a nonempty batch) returns an error.  In
both cases the world is untouched: no per-item work, no filesystem mutation,
no store write. -/
theorem tidy_config_reject_amended (env : Env) (render : MediaFile → Except String String)
    (opts : TidyOptions) (reqs : List Nat) (w : World) :
    (reqs = [] → ExecuteTidy env render opts reqs w =
      (⟨0, 0, 0, 0, opts.dryRun, opts.targetBase⟩, none, w)) ∧
    (opts.targetBase = "" → reqs ≠ [] → ExecuteTidy env render opts reqs w =
      (⟨reqs.length, 0, 0, 0, opts.dryRun, opts.targetBase⟩,
        some "target base folder is not configured", w)) := by
  constructor
  · intro h
    subst h
    rfl
  · intro h1 h2
    simp [ExecuteTidy, h1, h2]

theorem tidy_config_reject_amended_witness :
    ExecuteTidy env0 renderDate ⟨"", false⟩ [1] world1 =
      (⟨1, 0, 0, 0, false, ""⟩, some "target base folder is not configured", world1) ∧
    ExecuteTidy env0 renderDate ⟨"/base", false⟩ [] world1 =
      (⟨0, 0, 0, 0, false, "/base"⟩, none, world1) :=
  ⟨(tidy_config_reject_amended env0 renderDate ⟨"", false⟩ [1] world1).2 rfl (by decide),
    (tidy_config_reject_amended env0 renderDate ⟨"/base", false⟩ [] world1).1 rfl⟩

/-- C4 (counterexample): a resolved file whose computed target equals its
current path is marked skipped — but planning already ran `os.MkdirAll`, so
"no filesystem change is made for that item" is false: the target directory
is created. -/
theorem tidy_skip_cex :
    (ExecuteTidy env0 renderSame ⟨"/base", false⟩ [2] world2).1.skipped = 1 ∧
    (ExecuteTidy env0 renderSame ⟨"/base", false⟩ [2] world2).2.2.store.actions = [] ∧
    (ExecuteTidy env0 renderSame ⟨"/base", false⟩ [2] world2).2.2.fs.dirs ≠ world2.fs.dirs := by
  decide

/-- C4 (amended): when the computed target equals the current path the item
is counted skipped, no `FileAction` row is recorded, no file is created,
moved or deleted (the target directory may have been created during
planning), and the loop continues with the next item (`processItem` returns
normally into `execLoop`). -/
theorem tidy_skip_amended {env : Env} {render : MediaFile → Except String String}
    {opts : TidyOptions} {file : MediaFile} {s : TidySummary} {w : World} {tgt : String}
    {w1 : World}
    (h1 : buildTargetPath env opts.targetBase render file w = (.ok tgt, w1))
    (h2 : file.path = tgt) :
    processItem env render opts file s w = ({ s with skipped := s.skipped + 1 }, w1) ∧
    w1.store = w.store ∧ w1.fs.files = w.fs.files := by
  refine ⟨processItem_skip h1 h2, ?_, ?_⟩
  · have := (buildTargetPath_frame env opts.targetBase render file w).1
    rw [h1] at this
    exact this
  · have := (buildTargetPath_frame env opts.targetBase render file w).2.1
    rw [h1] at this
    exact this

theorem tidy_skip_amended_witness :
    processItem env0 renderSame ⟨"/base", false⟩ mediaB ⟨1, 0, 0, 0, false, "/base"⟩ world2 =
      (⟨1, 0, 1, 0, false, "/base"⟩,
        ⟨⟨[], ["/base", "/base/d"]⟩, ⟨[mediaB], [], 1, 3⟩, [Event.mkdirAll "/base/d"]⟩) ∧
    (⟨⟨[], ["/base", "/base/d"]⟩, ⟨[mediaB], [], 1, 3⟩,
        ([Event.mkdirAll "/base/d"] : List Event)⟩ : World).store = world2.store ∧
    (⟨⟨[], ["/base", "/base/d"]⟩, ⟨[mediaB], [], 1, 3⟩,
        ([Event.mkdirAll "/base/d"] : List Event)⟩ : World).fs.files = world2.fs.files :=
  @tidy_skip_amended env0 renderSame ⟨"/base", false⟩ mediaB ⟨1, 0, 0, 0, false, "/base"⟩
    world2 "/base/d/a.jpg"
    ⟨⟨[], ["/base", "/base/d"]⟩, ⟨[mediaB], [], 1, 3⟩, [Event.mkdirAll "/base/d"]⟩
    (by decide) (by decide)

/-- C5 (code bug): the containment invariant fails.  The rendered pattern
`<..>/based/x` passes sanitization as `../based/x` (dot-trimming happens
before the illegal characters are stripped, so `<..>` becomes `..`), the
joined path cleans to `/based/x`, and the case-insensitive *string* prefix
check accepts it because `/base` is a string prefix of `/based/x`.  Path
generation succeeds with a target outside the base instead of failing with a
path-escape error. -/
theorem tidy_containment_bug :
    (buildTargetPath env0 "/base" renderEscape mediaA world1).1 = .ok "/based/x" ∧
    liesUnder "/base" "/based/x" = false := by
  decide

/-- C2 (counterexample): with a failing pending-row insert, the item is
counted failed and no row is stored — but the filesystem **was** mutated for
the item before the write-ahead record: planning created the target
directory.  This refutes both "pending row strictly before any filesystem
mutation" and "no filesystem mutation occurs for it". -/
theorem tidy_writeAhead_cex :
    (ExecuteTidy envCreateFail renderDate ⟨"/base", false⟩ [1] world1).1.failed = 1 ∧
    (ExecuteTidy envCreateFail renderDate ⟨"/base", false⟩ [1] world1).2.2.store.actions = [] ∧
    (ExecuteTidy envCreateFail renderDate ⟨"/base", false⟩ [1]
        world1).2.2.fs.dirs ≠ world1.fs.dirs := by
  decide

/-- C2 (amended): in every live run, every attempted **move** is preceded in
the trace by its own successful pending-row insert (write-ahead with respect
to the move; directory creation happens earlier, during planning), and when
the pending insert fails the item is counted failed, no file changes and the
ledger gains no row for it. -/
theorem tidy_writeAhead_amended (env : Env) (render : MediaFile → Except String String)
    (opts : TidyOptions) (reqs : List Nat) (w : World)
    (hdry : opts.dryRun = false) (htr : w.trace = []) :
    WriteAheadTrace ((ExecuteTidy env render opts reqs w).2.2).trace ∧
    (∀ (file : MediaFile) (s : TidySummary) (w1 : World) (tgt e : String) (w2 : World),
      buildTargetPath env opts.targetBase render file w1 = (.ok tgt, w2) →
      file.path ≠ tgt → env.createActionErr file.id = some e →
      (processItem env render opts file s w1).1 = { s with failed := s.failed + 1 } ∧
      ((processItem env render opts file s w1).2).fs.files = w1.fs.files ∧
      ((processItem env render opts file s w1).2).store.actions = w1.store.actions) := by
  constructor
  · have hwa : WriteAheadTrace w.trace := by
      rw [htr]
      rfl
    unfold ExecuteTidy
    split
    · exact hwa
    · split
      · exact hwa
      · split
        · exact hwa
        · split
          · exact hwa
          · exact execLoop_trace hdry reqs 0 _ w hwa
  · intro file s w1 tgt e w2 h1 h2 h3
    have hpc := @processItem_createFail env render opts file s w1 tgt e w2 hdry h1 h2 h3
    have hfr := buildTargetPath_frame env opts.targetBase render file w1
    rw [h1] at hfr
    rw [hpc]
    exact ⟨rfl, hfr.2.1, congrArg StoreState.actions hfr.1⟩

theorem tidy_writeAhead_amended_witness :
    WriteAheadTrace ((ExecuteTidy env0 renderDate ⟨"/base", false⟩ [1] world1).2.2).trace :=
  (tidy_writeAhead_amended env0 renderDate ⟨"/base", false⟩ [1] world1 rfl rfl).1

/-- C6: when the computed target exists on disk, `ensureUnique` returns the
first free `-i` candidate (suffix placed before the extension), trying `i`
in `1..999`; when all 999 candidates are taken it fails for that path alone,
and a planning failure only adds one `failed` count before the loop moves to
the next item.  Stat faults are absent (`hstat`), matching the claim's
"exists on disk" reading. -/
theorem ensureUnique_spec (env : Env) (fs : FS) (path : String)
    (hstat : ∀ p, env.statErr p = false) (hex : fs.hasPath path = true) :
    (∀ i, 1 ≤ i → i ≤ 999 →
      fs.hasPath (uniqueCandidate (dirOf path)
        (trimSuffixStr (baseOf path) (extOf (baseOf path))) (extOf (baseOf path)) i) = false →
      (∀ j, 1 ≤ j → j < i →
        fs.hasPath (uniqueCandidate (dirOf path)
          (trimSuffixStr (baseOf path) (extOf (baseOf path)))
          (extOf (baseOf path)) j) = true) →
      ensureUnique env fs path = .ok (uniqueCandidate (dirOf path)
        (trimSuffixStr (baseOf path) (extOf (baseOf path))) (extOf (baseOf path)) i)) ∧
    ((∀ i, 1 ≤ i → i ≤ 999 →
      fs.hasPath (uniqueCandidate (dirOf path)
        (trimSuffixStr (baseOf path) (extOf (baseOf path)))
        (extOf (baseOf path)) i) = true) →
      ensureUnique env fs path = .error ("unable to find unique name for " ++ path)) ∧
    (∀ (envX : Env) (render : MediaFile → Except String String) (opts : TidyOptions)
      (file : MediaFile) (s : TidySummary) (w : World) (msg : String),
      (buildTargetPath envX opts.targetBase render file w).1 = .error msg →
      processItem envX render opts file s w =
        ({ s with failed := s.failed + 1 },
          (buildTargetPath envX opts.targetBase render file w).2)) := by
  refine ⟨?_, ?_, ?_⟩
  · intro i h1 h2 hfree htaken
    unfold ensureUnique
    rw [if_neg (by simp [hstat]), if_pos hex]
    exact ensureUniqueLoop_finds hstat 999 1 i h1 (by omega) hfree htaken
  · intro htaken
    unfold ensureUnique
    rw [if_neg (by simp [hstat]), if_pos hex]
    exact ensureUniqueLoop_exhausted hstat 999 1
      (fun j hj1 hj2 => htaken j hj1 (by omega))
  · intro envX render opts file s w msg h
    rcases hp : buildTargetPath envX opts.targetBase render file w with ⟨res, w2⟩
    cases res with
    | error e2 =>
      rw [hp] at h
      simp only [Except.error.injEq] at h
      subst h
      simp [processItem, hp]
    | ok t =>
      rw [hp] at h
      exact absurd h (by simp)

theorem ensureUnique_spec_witness :
    ensureUnique env0 ⟨["/t/a.jpg", "/t/a-1.jpg"], []⟩ "/t/a.jpg" =
      .ok "/t/a-2.jpg" :=
  (ensureUnique_spec env0 ⟨["/t/a.jpg", "/t/a-1.jpg"], []⟩ "/t/a.jpg" (fun _ => rfl)
      (by decide)).1 2 (by decide) (by decide) (by decide)
    (by
      intro j hj1 hj2
      have hj : j = 1 := by omega
      subst hj
      decide)

/-- C8: per-file and per-item errors are data, not operation failures.  For
every fault environment (stat, hash, persistence, pending-insert, move and
path-update faults all arbitrary) a scan without cancellation returns no
error, and a live or dry tidy run with a configured base, a parsed pattern
and a successful batch lookup returns no error — every such fault only lands
in the summary's error list, the per-item failed count or the ledger. -/
theorem errors_as_data_spec
    (senv : ScanEnv) (sopts : ScanOptions) (sources : List Source) (store0 : StoreState)
    (hsc : senv.canceled = false)
    (env : Env) (render : MediaFile → Except String String) (opts : TidyOptions)
    (reqs : List Nat) (w : World)
    (hc : ∀ i, env.canceled i = false) (hbase : opts.targetBase ≠ "")
    (hparse : env.parseErr = none) (hget : env.getMediaErr = none) :
    (ScanRun senv sopts sources store0).2.1 = none ∧
    (ExecuteTidy env render opts reqs w).2.1 = none := by
  constructor
  · have hnc := @scanSourcesLoop_nc senv (normalizeExts sopts.extensions)
      sopts.followSymlinks hsc ⟨[], 0, 0, 0, store0⟩ sources
    simp only [ScanRun]
    split
    · rename_i st heq2
      rw [heq2] at hnc
      exact absurd hnc (by simp)
    · split <;> rfl
  · simp only [ExecuteTidy, hparse, hget]
    split
    · rfl
    · exact execLoop_ok hc reqs 0 _ w

theorem errors_as_data_spec_witness :
    (ScanRun senv1 ⟨[".jpg"], false⟩ sources1 ⟨[], [], 1, 1⟩).2.1 = none ∧
    (ExecuteTidy envMoveFail renderDate ⟨"/base", false⟩ [1, 7] world1).2.1 = none :=
  errors_as_data_spec senv1 ⟨[".jpg"], false⟩ sources1 ⟨[], [], 1, 1⟩ rfl
    envMoveFail renderDate ⟨"/base", false⟩ [1, 7] world1
    (fun _ => rfl) (by decide) rfl rfl

set_option maxRecDepth 4000 in
/-- C9 (counterexample): a path-update failure is recorded in the ledger
**without** truncation: the stored message is
`update media path: <err>`, and with a 300-character error it exceeds 240
characters, refuting the claim for that error kind. -/
theorem ledger_truncate_cex :
    (ExecuteTidy envUpdateFail renderDate ⟨"/base", false⟩ [1] world1).1.failed = 1 ∧
    ((ExecuteTidy envUpdateFail renderDate ⟨"/base", false⟩ [1]
        world1).2.2.store.actions.any fun a =>
      (match a.errorMsg with
        | some m => decide (240 < m.length)
        | none => false) && decide (a.status = ActionStatus.failed)) = true := by
  decide

/-- C9 (amended): a **move** failure in a live run marks the item's pending
ledger row failed with `truncateError` of the move error, and that message
never exceeds 240 characters (path-update failures are recorded
untruncated, per the counterexample). -/
theorem ledger_truncate_amended {env : Env} {render : MediaFile → Except String String}
    {opts : TidyOptions} {file : MediaFile} {s : TidySummary} {w : World} {tgt m : String}
    {w1 : World}
    (hdry : opts.dryRun = false)
    (h1 : buildTargetPath env opts.targetBase render file w = (.ok tgt, w1))
    (h2 : file.path ≠ tgt)
    (h3 : env.createActionErr file.id = none)
    (h4 : env.moveErr file.path tgt = some m)
    (h5 : w1.store.nextActionId ≠ 0) :
    (processItem env render opts file s w).1 = { s with failed := s.failed + 1 } ∧
    ∃ a, a ∈ ((processItem env render opts file s w).2).store.actions ∧
      a.id = w1.store.nextActionId ∧ a.targetPath = tgt ∧
      a.status = ActionStatus.failed ∧ a.errorMsg = some (truncateError m) ∧
      (truncateError m).length ≤ 240 := by
  obtain ⟨ha, a, hmem, hid, htgt, hst, hmsg⟩ := processItem_moveFail hdry h1 h2 h3 h4 h5
  exact ⟨ha, a, hmem, hid, htgt, hst, hmsg, truncateError_length m⟩

theorem ledger_truncate_amended_witness :
    (processItem envMoveFail renderDate ⟨"/base", false⟩ mediaA
        ⟨1, 0, 0, 0, false, "/base"⟩ world1).1 =
      ⟨1, 0, 0, 1, false, "/base"⟩ ∧
    ∃ a, a ∈ ((processItem envMoveFail renderDate ⟨"/base", false⟩ mediaA
        ⟨1, 0, 0, 0, false, "/base"⟩ world1).2).store.actions ∧
      a.id = 1 ∧ a.targetPath = "/base/2021/a.jpg" ∧
      a.status = ActionStatus.failed ∧
      a.errorMsg = some (truncateError "device busy") ∧
      (truncateError "device busy").length ≤ 240 :=
  @ledger_truncate_amended envMoveFail renderDate ⟨"/base", false⟩ mediaA
    ⟨1, 0, 0, 0, false, "/base"⟩ world1 "/base/2021/a.jpg" "device busy"
    ⟨⟨["/src/a.jpg"], ["/src", "/base", "/base/2021"]⟩, store1,
      [Event.mkdirAll "/base/2021"]⟩
    rfl (by decide) (by decide) rfl rfl (by decide)

/-- C10: a run of `Execute` that returns without an error counted every
request in exactly one of moved, skipped or failed, so the summary satisfies
`moved + skipped + failed = total = number of requests`.  Dry-run planned
items land in the `moved` field (the witness is a dry run whose planned item
is the `moved` count). -/
theorem tidy_summary_counts (env : Env) (render : MediaFile → Except String String)
    (opts : TidyOptions) (reqs : List Nat) (w : World) (s : TidySummary) (w' : World)
    (h : ExecuteTidy env render opts reqs w = (s, none, w')) :
    s.moved + s.skipped + s.failed = s.total ∧ s.total = reqs.length := by
  unfold ExecuteTidy at h
  split at h
  · rename_i hreq
    simp only [Prod.mk.injEq] at h
    obtain ⟨rfl, -, -⟩ := h
    simp [hreq]
  · split at h
    · simp at h
    · split at h
      · simp at h
      · split at h
        · simp at h
        · have hc := execLoop_counts reqs 0 _ w s w' h
          simp only at hc
          omega

theorem tidy_summary_counts_witness :
    ((⟨1, 1, 0, 0, true, "/base"⟩ : TidySummary).moved +
        (⟨1, 1, 0, 0, true, "/base"⟩ : TidySummary).skipped +
        (⟨1, 1, 0, 0, true, "/base"⟩ : TidySummary).failed =
      (⟨1, 1, 0, 0, true, "/base"⟩ : TidySummary).total) ∧
    (⟨1, 1, 0, 0, true, "/base"⟩ : TidySummary).total = [1].length :=
  tidy_summary_counts env0 renderDate ⟨"/base", true⟩ [1] world1
    ⟨1, 1, 0, 0, true, "/base"⟩
    ⟨⟨["/src/a.jpg"], ["/src", "/base", "/base/2021"]⟩, store1,
      [Event.mkdirAll "/base/2021"]⟩
    (by decide)

/-- C7 witness: with three rows of which two share a hash, the hash with two
rows appears in the result and the singleton hash does not. -/
theorem store_listDuplicateGroups_spec_witness :
    (2 ≤ countHash [⟨1, "a", "h", 1⟩, ⟨2, "b", "k", 1⟩, ⟨3, "c", "h", 1⟩] "h") ∧
    (∃ g ∈ listDuplicateGroups [⟨1, "a", "h", 1⟩, ⟨2, "b", "k", 1⟩, ⟨3, "c", "h", 1⟩],
      g.hash = "h") ∧
    ¬ (∃ g ∈ listDuplicateGroups [⟨1, "a", "h", 1⟩, ⟨2, "b", "k", 1⟩, ⟨3, "c", "h", 1⟩],
      g.hash = "k") :=
  ⟨by decide,
    ((store_listDuplicateGroups_spec
        [⟨1, "a", "h", 1⟩, ⟨2, "b", "k", 1⟩, ⟨3, "c", "h", 1⟩] (by decide)).1 "h").mpr
      (by decide),
    fun hcon =>
      absurd (((store_listDuplicateGroups_spec
          [⟨1, "a", "h", 1⟩, ⟨2, "b", "k", 1⟩, ⟨3, "c", "h", 1⟩] (by decide)).1 "k").mp hcon)
        (by decide)⟩

end PhotoTidy
